import Mathlib

/-!
Verification of the dotenv_lib parser (src/lib.rs) against its specification.

The Rust source is shallowly embedded: Rust `String` buffers become `List Char`,
the token loop of `parse_dot_env` becomes a step function `stepToken` folded over
the token list, and `HashMap::insert` becomes `insertEnv` on an association list
with overwrite semantics.
-/

namespace DotenvLib

/-- Characters that need care under the file's surface-syntax rules are named. -/
def squoteChar : Char := Char.ofNat 39

/-- The double-quote character. -/
def dquoteChar : Char := Char.ofNat 34

/-- The newline character. -/
def nlChar : Char := Char.ofNat 10

/-- Rust `String` buffers are modelled as lists of characters. -/
abbrev Str := List Char

/-- Model of `EnvMap = HashMap<String, String>`: an association list whose
insert operation keeps keys unique (overwrite semantics). -/
abbrev EnvMap := List (Str × Str)

/-- `EnvToken` from `mod internals` of src/lib.rs. -/
inductive EnvToken
  | Character (c : Char)
  | AssignmentOperator
  | NewLine
  | Eof
  | Comment
  | DoubleQuoteMark
  | SingleQuoteMark
  | Whitespace
deriving Repr, DecidableEq

/-- Per-character classification done inside `lex_dot_env`. -/
def charToken (c : Char) : EnvToken :=
  if c = '=' then .AssignmentOperator
  else if c = ' ' then .Whitespace
  else if c = '#' then .Comment
  else if c = nlChar then .NewLine
  else if c = dquoteChar then .DoubleQuoteMark
  else if c = squoteChar then .SingleQuoteMark
  else .Character c

/-- `lex_dot_env`: one token per input character, followed by exactly one `Eof`. -/
def lex_dot_env (cs : List Char) : List EnvToken :=
  cs.map charToken ++ [.Eof]

/-- `EnvError` from src/lib.rs. -/
inductive EnvError
  | UnexpectedToken (expected found : String) (line character : Nat)
  | MissingAssignmentOperator (key : String) (line character : Nat)
  | ExpectedValueButFoundAssignment (line character : Nat)
  | MissingKey (line : Nat)
  | MissingValue (line : Nat)
  | FoundOnlyKey (line : Nat)
  | UnclosedValue (line : Nat)
deriving Repr, DecidableEq

/-- The mutable locals of `parse_dot_env`:
`new_env_map`, `line_counter`, `character_counter`, `current_key`,
`current_value`, `expecting_key`, `expecting_value`, `in_a_comment`,
`encountered_assignment`, `in_single_quoted_string`, `in_double_quoted_string`. -/
structure PState where
  map : EnvMap
  line : Nat
  chr : Nat
  key : Str
  value : Str
  expectingKey : Bool
  expectingValue : Bool
  inComment : Bool
  encounteredAssignment : Bool
  inSingle : Bool
  inDouble : Bool
deriving Repr, DecidableEq

/-- `HashMap::insert`: overwrite any existing binding of the key. -/
def insertEnv (m : EnvMap) (k v : Str) : EnvMap :=
  m.filter (fun p => !decide (p.1 = k)) ++ [(k, v)]

/-- The initial values of `parse_dot_env`'s locals. -/
def initState : PState :=
  { map := [], line := 1, chr := 1, key := [], value := [],
    expectingKey := true, expectingValue := false, inComment := false,
    encounteredAssignment := false, inSingle := false, inDouble := false }

deriving instance DecidableEq for Except

/-- Result of one iteration of the token loop: continue with a new state,
finish (the `break` on `Eof`), or return an error. -/
inductive StepOut
  | next (s : PState)
  | done (m : EnvMap)
  | fail (e : EnvError)
deriving Repr, DecidableEq

/-- One iteration of the `for token in tokens` loop of `parse_dot_env`,
translated arm by arm from src/lib.rs lines 176-459. -/
def stepToken (st : PState) (t : EnvToken) : StepOut :=
  match t with
  | .Character c =>
    let st := { st with chr := st.chr + 1 }
    if st.inComment then .next st
    else if st.expectingKey then .next { st with key := st.key ++ [c] }
    else if st.expectingValue then .next { st with value := st.value ++ [c] }
    else .fail (.UnexpectedToken "comment of new line" (String.mk [c]) st.line st.chr)
  | .AssignmentOperator =>
    if (st.inSingle || st.inDouble) && st.expectingValue then
      .next { st with value := st.value ++ ['='] }
    else if !st.expectingKey && st.value.isEmpty then
      .fail (.ExpectedValueButFoundAssignment st.line st.chr)
    else if !st.key.isEmpty && !st.value.isEmpty && st.encounteredAssignment && !st.inComment then
      .fail (.ExpectedValueButFoundAssignment st.line st.chr)
    else
      .next { st with encounteredAssignment := !st.inComment,
                      expectingKey := false, expectingValue := true, chr := st.chr + 1 }
  | .Whitespace =>
    if st.inSingle || st.inDouble then
      if st.expectingValue then .next { st with value := st.value ++ [' '] } else .next st
    else
      let st := { st with chr := st.chr + 1 }
      if st.inComment then .next st
      else if st.expectingKey then
        .fail (.UnexpectedToken "key or comment symbol" " " st.line st.chr)
      else if st.expectingValue then .next { st with expectingValue := false }
      else .next st
  | .Comment =>
    if (st.inSingle || st.inDouble) && st.expectingValue then
      .next { st with value := st.value ++ ['#'] }
    else .next { st with inComment := true }
  | .NewLine =>
    if st.inSingle || st.inDouble then
      .next { st with value := st.value ++ [nlChar] }
    else if st.key.isEmpty && st.value.isEmpty && !st.encounteredAssignment then
      .next { st with expectingKey := true, expectingValue := false, key := [], value := [],
                      line := st.line + 1, inComment := false, chr := 0,
                      encounteredAssignment := false }
    else if st.encounteredAssignment && st.key.isEmpty then .fail (.MissingKey st.line)
    else if st.encounteredAssignment && st.value.isEmpty then .fail (.MissingValue st.line)
    else if !st.key.isEmpty && st.value.isEmpty && !st.encounteredAssignment then
      .fail (.FoundOnlyKey st.line)
    else if st.key.isEmpty && !st.value.isEmpty then .fail (.MissingKey st.line)
    else if !st.key.isEmpty && st.value.isEmpty then .fail (.MissingValue st.line)
    else
      .next { st with
        map := if !st.key.isEmpty && !st.value.isEmpty then insertEnv st.map st.key st.value
               else st.map,
        expectingKey := true, expectingValue := false, key := [], value := [],
        inComment := false, line := st.line + 1, chr := 0, encounteredAssignment := false }
  | .Eof =>
    if st.inSingle || st.inDouble then .fail (.UnclosedValue st.line)
    else
      let m := if !st.key.isEmpty && !st.value.isEmpty then insertEnv st.map st.key st.value
               else st.map
      if st.key.isEmpty && !st.value.isEmpty then .fail (.MissingKey st.line)
      else if !st.key.isEmpty && st.value.isEmpty then .fail (.MissingValue st.line)
      else .done m
  | .SingleQuoteMark =>
    if st.inDouble then
      if st.expectingKey then
        .fail (.UnexpectedToken "key or assignment operator" "single quotation mark" st.line st.chr)
      else .next { st with value := st.value ++ [squoteChar] }
    else if st.inSingle then
      .next { st with inSingle := false, expectingValue := false }
    else if st.expectingKey then
      .fail (.UnexpectedToken "key or assignment operator" "single quote mark" st.line st.chr)
    else if !st.value.isEmpty then
      .fail (.UnexpectedToken "value, whitespace, newline, or comment" "single quotation mark"
        st.line st.chr)
    else .next { st with inSingle := true }
  | .DoubleQuoteMark =>
    if st.inSingle && st.expectingKey then
      .fail (.UnexpectedToken "key or assignment operator" "double quote mark" st.line st.chr)
    else if st.inSingle && st.expectingValue then
      .next { st with value := st.value ++ [dquoteChar] }
    else if st.inDouble then
      .next { st with inDouble := false, expectingValue := false }
    else if st.expectingKey then
      .fail (.UnexpectedToken "key or assignment operator" "double quote mark" st.line st.chr)
    else if !st.value.isEmpty then
      .fail (.UnexpectedToken "value, whitespace, newline, or comment" "double quotation mark"
        st.line st.chr)
    else .next { st with inDouble := true }

/-- The token loop of `parse_dot_env`. -/
def parseLoop : PState → List EnvToken → Except EnvError EnvMap
  | st, [] => .ok st.map
  | st, t :: ts =>
    match stepToken st t with
    | .fail e => .error e
    | .done m => .ok m
    | .next s => parseLoop s ts

/-- `parse_dot_env` from src/lib.rs. -/
def parse_dot_env (ts : List EnvToken) : Except EnvError EnvMap :=
  parseLoop initState ts

/-- `process_dot_env` from src/lib.rs: `parse_dot_env(lex_dot_env(contents))`. -/
def process_dot_env (cs : List Char) : Except EnvError EnvMap :=
  parse_dot_env (lex_dot_env cs)

/-- Helper for reasoning about prefixes of the token stream: run the loop body
over the tokens of a list of characters. `charToken` never produces `Eof`, so
the `done` fallback is unreachable (see `stepToken_char_ne_done`). -/
def runChars : PState → List Char → Except EnvError PState
  | st, [] => .ok st
  | st, c :: cs =>
    match stepToken st (charToken c) with
    | .next s => runChars s cs
    | .fail e => .error e
    | .done _ => .error (.UnclosedValue 0)

/-- The effect of the final `Eof` token on a state. -/
def eofFinish (st : PState) : Except EnvError EnvMap :=
  match stepToken st .Eof with
  | .fail e => .error e
  | .done m => .ok m
  | .next s => .ok s.map

/-- Lookup in the association-list model of the map. -/
def lookupEnv (m : EnvMap) (k : Str) : Option Str :=
  (m.find? (fun p => decide (p.1 = k))).map (fun p => p.2)

/-- The value attached to the last occurrence of a key in a list of pairs. -/
def lastAssign (ps : List (Str × Str)) (k : Str) : Option Str :=
  (ps.reverse.find? (fun p => decide (p.1 = k))).map (fun p => p.2)

/-- Concatenation of a list of character lists. -/
def concatAll : List (List Char) → List Char
  | [] => []
  | l :: ls => l ++ concatAll ls

/-- The text written by `serialize_new_env` (src/lib.rs lines 503-511): one
`KEY=VALUE` line terminated by a newline per entry, in iteration order, with
both sides written raw (no quoting or escaping). -/
def serializeContent (m : EnvMap) : List Char :=
  concatAll (m.map (fun p => p.1 ++ '=' :: p.2 ++ [nlChar]))

/-- A character the lexer classifies as `Character` (no special meaning). -/
def plainChar (c : Char) : Bool :=
  !(c == '=' || c == ' ' || c == '#' || c == nlChar || c == dquoteChar || c == squoteChar)

/-- A character that is inert inside a comment: anything that is not an
assignment operator, a newline, or a quotation mark. -/
def commentChar (c : Char) : Bool :=
  !(c == '=' || c == nlChar || c == dquoteChar || c == squoteChar)

/-- Abstract shape of one physical line of a well-formed `.env` text. -/
inductive Line
  | blank
  | comment (body : List Char)
  | plain (k v : List Char)
  | squoted (k v : List Char)
  | dquoted (k v : List Char)
deriving Repr, DecidableEq

/-- Side conditions under which a `Line` renders to a parseable line:
non-empty plain key, non-empty value without the closing delimiter, and
comment bodies free of assignment operators and quotation marks. -/
def Line.wf : Line → Bool
  | .blank => true
  | .comment body => body.all commentChar
  | .plain k v => !k.isEmpty && k.all plainChar && !v.isEmpty && v.all plainChar
  | .squoted k v =>
    !k.isEmpty && k.all plainChar && !v.isEmpty &&
      v.all (fun c => !(c == squoteChar || c == nlChar))
  | .dquoted k v =>
    !k.isEmpty && k.all plainChar && !v.isEmpty &&
      v.all (fun c => !(c == dquoteChar || c == nlChar))

/-- The concrete text of a line. -/
def Line.render : Line → List Char
  | .blank => []
  | .comment body => '#' :: body
  | .plain k v => k ++ '=' :: v
  | .squoted k v => k ++ '=' :: squoteChar :: (v ++ [squoteChar])
  | .dquoted k v => k ++ '=' :: dquoteChar :: (v ++ [dquoteChar])

/-- The key/value pair a line contributes, if any. -/
def Line.pair : Line → Option (Str × Str)
  | .blank => none
  | .comment _ => none
  | .plain k v => some (k, v)
  | .squoted k v => some (k, v)
  | .dquoted k v => some (k, v)

/-- A text whose lines are exactly the given ones, each newline-terminated. -/
def renderLines (ls : List Line) : List Char :=
  concatAll (ls.map (fun l => l.render ++ [nlChar]))

/-- How far the column counter advances over these characters while inside a
quoted value: only `Character` tokens bump it there. -/
def bumps : List Char → Nat
  | [] => 0
  | c :: cs => (match charToken c with | .Character _ => 1 | _ => 0) + bumps cs

/-- The parser state at the beginning of a line: the configuration after the
line reset in the `NewLine` arm, and also the initial configuration. -/
def lineStart (s : PState) : Prop :=
  s.key = [] ∧ s.value = [] ∧ s.expectingKey = true ∧ s.expectingValue = false ∧
  s.inComment = false ∧ s.encounteredAssignment = false ∧ s.inSingle = false ∧ s.inDouble = false

instance (s : PState) : Decidable (lineStart s) := by
  unfold lineStart; infer_instance

/-- The state after the per-line reset performed by the `NewLine` arm. -/
def lineReset (st : PState) (m : EnvMap) : PState :=
  { st with map := m, expectingKey := true, expectingValue := false, key := [], value := [],
            inComment := false, line := st.line + 1, chr := 0, encounteredAssignment := false }

/-- The parser stays inside a quoted region throughout the given characters. -/
def stayInQuote : PState → List Char → Bool
  | _, [] => true
  | s, c :: cs =>
    match stepToken s (charToken c) with
    | .next s2 => (s2.inSingle || s2.inDouble) && stayInQuote s2 cs
    | _ => false

/-- End-of-input and an explicit final newline agree on this state: not inside
a quote, not a bare key without an assignment, and not an assignment with both
buffers still empty. -/
def eofLikeNewline (s : PState) : Bool :=
  !(s.inSingle || s.inDouble) &&
  !(!s.key.isEmpty && s.value.isEmpty && !s.encounteredAssignment) &&
  !(s.key.isEmpty && s.value.isEmpty && s.encounteredAssignment)

/-! Plumbing: relating `parseLoop` on lexed text to `runChars` plus `eofFinish`. -/

theorem stepToken_char_ne_done (st : PState) (c : Char) (m : EnvMap) :
    stepToken st (charToken c) ≠ .done m := by
  unfold charToken
  repeat' split
  all_goals simp only [stepToken]
  all_goals repeat' split
  all_goals simp

theorem runChars_append (a b : List Char) : ∀ st : PState,
    runChars st (a ++ b) =
      match runChars st a with
      | .ok s => runChars s b
      | .error e => .error e := by
  induction a with
  | nil => intro st; simp [runChars]
  | cons c a ih =>
    intro st
    simp only [List.cons_append, runChars]
    cases h : stepToken st (charToken c) with
    | next s => simpa using ih s
    | done m => simp
    | fail e => simp

theorem parseLoop_chars (cs : List Char) (rest : List EnvToken) : ∀ st : PState,
    parseLoop st (cs.map charToken ++ rest) =
      match runChars st cs with
      | .ok s => parseLoop s rest
      | .error e => .error e := by
  induction cs with
  | nil => intro st; simp [runChars]
  | cons c cs ih =>
    intro st
    simp only [List.map_cons, List.cons_append, parseLoop, runChars]
    cases h : stepToken st (charToken c) with
    | next s => simpa using ih s
    | done m => exact absurd h (stepToken_char_ne_done st c m)
    | fail e => simp

theorem process_runChars (cs : List Char) :
    process_dot_env cs =
      match runChars initState cs with
      | .ok s => eofFinish s
      | .error e => .error e := by
  have h := parseLoop_chars cs [.Eof] initState
  simp only [process_dot_env, parse_dot_env, lex_dot_env] at *
  rw [h]
  cases hr : runChars initState cs with
  | ok s => simp only [eofFinish, parseLoop]
  | error e => simp

/-! Small facts about emptiness and character classification. -/

theorem isEmpty_false_of_ne_nil {l : List Char} (h : l ≠ []) : l.isEmpty = false := by
  simp [List.isEmpty_iff, h]

theorem charToken_plain {c : Char} (h : plainChar c = true) : charToken c = .Character c := by
  simp only [plainChar, Bool.not_eq_true', Bool.or_eq_false_iff, beq_eq_false_iff_ne] at h
  obtain ⟨⟨⟨⟨⟨h1, h2⟩, h3⟩, h4⟩, h5⟩, h6⟩ := h
  simp [charToken, h1, h2, h3, h4, h5, h6]

theorem charToken_assign : charToken '=' = .AssignmentOperator := by decide

theorem charToken_ws : charToken ' ' = .Whitespace := by decide

theorem charToken_hash : charToken '#' = .Comment := by decide

theorem charToken_nl : charToken nlChar = .NewLine := by decide

theorem charToken_dq : charToken dquoteChar = .DoubleQuoteMark := by decide

theorem charToken_sq : charToken squoteChar = .SingleQuoteMark := by decide

/-! One lemma per reachable branch of `stepToken` that the development uses. -/

theorem step_char_key {st : PState} (c : Char) (hcm : st.inComment = false)
    (hk : st.expectingKey = true) :
    stepToken st (.Character c) = .next { st with key := st.key ++ [c], chr := st.chr + 1 } := by
  simp [stepToken, hcm, hk]

theorem step_char_value {st : PState} (c : Char) (hcm : st.inComment = false)
    (hk : st.expectingKey = false) (hv : st.expectingValue = true) :
    stepToken st (.Character c) = .next { st with value := st.value ++ [c], chr := st.chr + 1 } := by
  simp [stepToken, hcm, hk, hv]

theorem step_char_comment {st : PState} (c : Char) (hcm : st.inComment = true) :
    stepToken st (.Character c) = .next { st with chr := st.chr + 1 } := by
  simp [stepToken, hcm]

theorem step_assign_from_key {st : PState} (hq1 : st.inSingle = false) (hq2 : st.inDouble = false)
    (hk : st.expectingKey = true) (hv : st.value = []) :
    stepToken st .AssignmentOperator =
      .next { st with encounteredAssignment := !st.inComment, expectingKey := false,
                      expectingValue := true, chr := st.chr + 1 } := by
  simp [stepToken, hq1, hq2, hk, hv]

theorem step_assign_quote_push {st : PState} (hq : (st.inSingle || st.inDouble) = true)
    (hv : st.expectingValue = true) :
    stepToken st .AssignmentOperator = .next { st with value := st.value ++ ['='] } := by
  simp [stepToken, hq, hv]

theorem step_ws_quote_push {st : PState} (hq : (st.inSingle || st.inDouble) = true)
    (hv : st.expectingValue = true) :
    stepToken st .Whitespace = .next { st with value := st.value ++ [' '] } := by
  simp [stepToken, hq, hv]

theorem step_ws_value_end {st : PState} (hq1 : st.inSingle = false) (hq2 : st.inDouble = false)
    (hcm : st.inComment = false) (hk : st.expectingKey = false) (hv : st.expectingValue = true) :
    stepToken st .Whitespace = .next { st with expectingValue := false, chr := st.chr + 1 } := by
  simp [stepToken, hq1, hq2, hcm, hk, hv]

theorem step_comment_push {st : PState} (hq : (st.inSingle || st.inDouble) = true)
    (hv : st.expectingValue = true) :
    stepToken st .Comment = .next { st with value := st.value ++ ['#'] } := by
  simp [stepToken, hq, hv]

theorem step_comment_start {st : PState}
    (h : ((st.inSingle || st.inDouble) && st.expectingValue) = false) :
    stepToken st .Comment = .next { st with inComment := true } := by
  simp [stepToken, h]

theorem step_nl_quote_push {st : PState} (hq : (st.inSingle || st.inDouble) = true) :
    stepToken st .NewLine = .next { st with value := st.value ++ [nlChar] } := by
  simp [stepToken, hq]

theorem step_nl_blank {st : PState} (hq1 : st.inSingle = false) (hq2 : st.inDouble = false)
    (hk : st.key = []) (hv : st.value = []) (he : st.encounteredAssignment = false) :
    stepToken st .NewLine = .next (lineReset st st.map) := by
  simp [stepToken, lineReset, hq1, hq2, hk, hv, he]

theorem step_nl_commit {st : PState} (hq1 : st.inSingle = false) (hq2 : st.inDouble = false)
    (hk : st.key ≠ []) (hv : st.value ≠ []) :
    stepToken st .NewLine = .next (lineReset st (insertEnv st.map st.key st.value)) := by
  simp [stepToken, lineReset, hq1, hq2, isEmpty_false_of_ne_nil hk, isEmpty_false_of_ne_nil hv]

theorem step_nl_missing_value {st : PState} (hq1 : st.inSingle = false)
    (hq2 : st.inDouble = false) (he : st.encounteredAssignment = true) (hk : st.key ≠ [])
    (hv : st.value = []) :
    stepToken st .NewLine = .fail (.MissingValue st.line) := by
  simp [stepToken, hq1, hq2, he, isEmpty_false_of_ne_nil hk, hv]

theorem step_nl_missing_key {st : PState} (hq1 : st.inSingle = false) (hq2 : st.inDouble = false)
    (he : st.encounteredAssignment = true) (hk : st.key = []) :
    stepToken st .NewLine = .fail (.MissingKey st.line) := by
  simp [stepToken, hq1, hq2, he, hk]

theorem step_nl_found_only_key {st : PState} (hq1 : st.inSingle = false)
    (hq2 : st.inDouble = false) (he : st.encounteredAssignment = false) (hk : st.key ≠ [])
    (hv : st.value = []) :
    stepToken st .NewLine = .fail (.FoundOnlyKey st.line) := by
  simp [stepToken, hq1, hq2, he, isEmpty_false_of_ne_nil hk, hv]

theorem step_sq_open {st : PState} (hq1 : st.inSingle = false) (hq2 : st.inDouble = false)
    (hk : st.expectingKey = false) (hv : st.value = []) :
    stepToken st .SingleQuoteMark = .next { st with inSingle := true } := by
  simp [stepToken, hq1, hq2, hk, hv]

theorem step_sq_close {st : PState} (hq1 : st.inSingle = true) (hq2 : st.inDouble = false) :
    stepToken st .SingleQuoteMark = .next { st with inSingle := false, expectingValue := false } := by
  simp [stepToken, hq1, hq2]

theorem step_sq_push_in_double {st : PState} (hq : st.inDouble = true)
    (hk : st.expectingKey = false) :
    stepToken st .SingleQuoteMark = .next { st with value := st.value ++ [squoteChar] } := by
  simp [stepToken, hq, hk]

theorem step_dq_open {st : PState} (hq1 : st.inSingle = false) (hq2 : st.inDouble = false)
    (hk : st.expectingKey = false) (hv : st.value = []) :
    stepToken st .DoubleQuoteMark = .next { st with inDouble := true } := by
  simp [stepToken, hq1, hq2, hk, hv]

theorem step_dq_close {st : PState} (hq1 : st.inSingle = false) (hq2 : st.inDouble = true) :
    stepToken st .DoubleQuoteMark = .next { st with inDouble := false, expectingValue := false } := by
  simp [stepToken, hq1, hq2]

theorem step_dq_push_in_single {st : PState} (hq : st.inSingle = true)
    (hk : st.expectingKey = false) (hv : st.expectingValue = true) :
    stepToken st .DoubleQuoteMark = .next { st with value := st.value ++ [dquoteChar] } := by
  simp [stepToken, hq, hk, hv]

theorem step_ws_comment {st : PState} (hq1 : st.inSingle = false) (hq2 : st.inDouble = false)
    (hcm : st.inComment = true) :
    stepToken st .Whitespace = .next { st with chr := st.chr + 1 } := by
  simp [stepToken, hq1, hq2, hcm]

theorem eofFinish_blank {st : PState} (hq1 : st.inSingle = false) (hq2 : st.inDouble = false)
    (hk : st.key = []) (hv : st.value = []) :
    eofFinish st = .ok st.map := by
  simp [eofFinish, stepToken, hq1, hq2, hk, hv]

theorem eofFinish_commit {st : PState} (hq1 : st.inSingle = false) (hq2 : st.inDouble = false)
    (hk : st.key ≠ []) (hv : st.value ≠ []) :
    eofFinish st = .ok (insertEnv st.map st.key st.value) := by
  simp [eofFinish, stepToken, hq1, hq2, isEmpty_false_of_ne_nil hk, isEmpty_false_of_ne_nil hv]

theorem eofFinish_missing_value {st : PState} (hq1 : st.inSingle = false)
    (hq2 : st.inDouble = false) (hk : st.key ≠ []) (hv : st.value = []) :
    eofFinish st = .error (.MissingValue st.line) := by
  simp [eofFinish, stepToken, hq1, hq2, isEmpty_false_of_ne_nil hk, hv]

theorem eofFinish_missing_key {st : PState} (hq1 : st.inSingle = false)
    (hq2 : st.inDouble = false) (hk : st.key = []) (hv : st.value ≠ []) :
    eofFinish st = .error (.MissingKey st.line) := by
  simp [eofFinish, stepToken, hq1, hq2, hk, isEmpty_false_of_ne_nil hv]

theorem eofFinish_unclosed {st : PState} (hq : (st.inSingle || st.inDouble) = true) :
    eofFinish st = .error (.UnclosedValue st.line) := by
  simp [eofFinish, stepToken, hq]

/-! Accumulation lemmas: how runs of characters move through the state machine. -/

theorem runChars_key_accum : ∀ (cs : List Char) (st : PState), st.inComment = false →
    st.expectingKey = true → (∀ c ∈ cs, plainChar c = true) →
    runChars st cs = .ok { st with key := st.key ++ cs, chr := st.chr + cs.length } := by
  intro cs
  induction cs with
  | nil => intro st _ _ _; simp [runChars]
  | cons c cs ih =>
    intro st hcm hk hall
    have hc : plainChar c = true := hall c (by simp)
    have hrest : ∀ c2 ∈ cs, plainChar c2 = true := fun c2 h2 => hall c2 (by simp [h2])
    simp only [runChars, charToken_plain hc, step_char_key c hcm hk]
    rw [ih { st with key := st.key ++ [c], chr := st.chr + 1 } hcm hk hrest]
    simp [List.append_assoc] <;> omega

theorem runChars_value_accum : ∀ (cs : List Char) (st : PState), st.inComment = false →
    st.expectingKey = false → st.expectingValue = true → (∀ c ∈ cs, plainChar c = true) →
    runChars st cs = .ok { st with value := st.value ++ cs, chr := st.chr + cs.length } := by
  intro cs
  induction cs with
  | nil => intro st _ _ _ _; simp [runChars]
  | cons c cs ih =>
    intro st hcm hk hv hall
    have hc : plainChar c = true := hall c (by simp)
    have hrest : ∀ c2 ∈ cs, plainChar c2 = true := fun c2 h2 => hall c2 (by simp [h2])
    simp only [runChars, charToken_plain hc, step_char_value c hcm hk hv]
    rw [ih { st with value := st.value ++ [c], chr := st.chr + 1 } hcm hk hv hrest]
    simp [List.append_assoc] <;> omega

theorem runChars_squote_accum : ∀ (cs : List Char) (st : PState), st.inSingle = true →
    st.inDouble = false → st.expectingKey = false → st.expectingValue = true →
    st.inComment = false → (∀ c ∈ cs, c ≠ squoteChar) →
    runChars st cs = .ok { st with value := st.value ++ cs, chr := st.chr + bumps cs } := by
  intro cs
  induction cs with
  | nil => intro st _ _ _ _ _ _; simp [runChars, bumps]
  | cons c cs ih =>
    intro st hs hd hk hv hcm hall
    have hc : c ≠ squoteChar := hall c (by simp)
    have hrest : ∀ c2 ∈ cs, c2 ≠ squoteChar := fun c2 h2 => hall c2 (by simp [h2])
    have hq : (st.inSingle || st.inDouble) = true := by simp [hs]
    by_cases h1 : c = '='
    · subst h1
      simp only [runChars, charToken_assign, step_assign_quote_push hq hv]
      rw [ih { st with value := st.value ++ ['='] } hs hd hk hv hcm hrest]
      simp [List.append_assoc, bumps, charToken_assign]
    · by_cases h2 : c = ' '
      · subst h2
        simp only [runChars, charToken_ws, step_ws_quote_push hq hv]
        rw [ih { st with value := st.value ++ [' '] } hs hd hk hv hcm hrest]
        simp [List.append_assoc, bumps, charToken_ws]
      · by_cases h3 : c = '#'
        · subst h3
          simp only [runChars, charToken_hash, step_comment_push hq hv]
          rw [ih { st with value := st.value ++ ['#'] } hs hd hk hv hcm hrest]
          simp [List.append_assoc, bumps, charToken_hash]
        · by_cases h4 : c = nlChar
          · subst h4
            simp only [runChars, charToken_nl, step_nl_quote_push hq]
            rw [ih { st with value := st.value ++ [nlChar] } hs hd hk hv hcm hrest]
            simp [List.append_assoc, bumps, charToken_nl]
          · by_cases h5 : c = dquoteChar
            · subst h5
              simp only [runChars, charToken_dq, step_dq_push_in_single hs hk hv]
              rw [ih { st with value := st.value ++ [dquoteChar] } hs hd hk hv hcm hrest]
              simp [List.append_assoc, bumps, charToken_dq]
            · have hc2 : plainChar c = true := by
                simp [plainChar, h1, h2, h3, h4, h5, hc]
              simp only [runChars, charToken_plain hc2, step_char_value c hcm hk hv]
              rw [ih { st with value := st.value ++ [c], chr := st.chr + 1 } hs hd hk hv hcm hrest]
              simp [List.append_assoc, bumps, charToken_plain hc2] <;> omega

theorem runChars_dquote_accum : ∀ (cs : List Char) (st : PState), st.inSingle = false →
    st.inDouble = true → st.expectingKey = false → st.expectingValue = true →
    st.inComment = false → (∀ c ∈ cs, c ≠ dquoteChar) →
    runChars st cs = .ok { st with value := st.value ++ cs, chr := st.chr + bumps cs } := by
  intro cs
  induction cs with
  | nil => intro st _ _ _ _ _ _; simp [runChars, bumps]
  | cons c cs ih =>
    intro st hs hd hk hv hcm hall
    have hc : c ≠ dquoteChar := hall c (by simp)
    have hrest : ∀ c2 ∈ cs, c2 ≠ dquoteChar := fun c2 h2 => hall c2 (by simp [h2])
    have hq : (st.inSingle || st.inDouble) = true := by simp [hd]
    by_cases h1 : c = '='
    · subst h1
      simp only [runChars, charToken_assign, step_assign_quote_push hq hv]
      rw [ih { st with value := st.value ++ ['='] } hs hd hk hv hcm hrest]
      simp [List.append_assoc, bumps, charToken_assign]
    · by_cases h2 : c = ' '
      · subst h2
        simp only [runChars, charToken_ws, step_ws_quote_push hq hv]
        rw [ih { st with value := st.value ++ [' '] } hs hd hk hv hcm hrest]
        simp [List.append_assoc, bumps, charToken_ws]
      · by_cases h3 : c = '#'
        · subst h3
          simp only [runChars, charToken_hash, step_comment_push hq hv]
          rw [ih { st with value := st.value ++ ['#'] } hs hd hk hv hcm hrest]
          simp [List.append_assoc, bumps, charToken_hash]
        · by_cases h4 : c = nlChar
          · subst h4
            simp only [runChars, charToken_nl, step_nl_quote_push hq]
            rw [ih { st with value := st.value ++ [nlChar] } hs hd hk hv hcm hrest]
            simp [List.append_assoc, bumps, charToken_nl]
          · by_cases h5 : c = squoteChar
            · subst h5
              simp only [runChars, charToken_sq, step_sq_push_in_double hd hk]
              rw [ih { st with value := st.value ++ [squoteChar] } hs hd hk hv hcm hrest]
              simp [List.append_assoc, bumps, charToken_sq]
            · have hc2 : plainChar c = true := by
                simp [plainChar, h1, h2, h3, h4, h5, hc]
              simp only [runChars, charToken_plain hc2, step_char_value c hcm hk hv]
              rw [ih { st with value := st.value ++ [c], chr := st.chr + 1 } hs hd hk hv hcm hrest]
              simp [List.append_assoc, bumps, charToken_plain hc2] <;> omega

theorem runChars_comment_skip : ∀ (cs : List Char) (st : PState), st.inComment = true →
    st.inSingle = false → st.inDouble = false → (∀ c ∈ cs, commentChar c = true) →
    ∃ n, runChars st cs = .ok { st with chr := n } := by
  intro cs
  induction cs with
  | nil =>
    intro st _ _ _ _
    exact ⟨st.chr, by simp [runChars]⟩
  | cons c cs ih =>
    intro st hcm hs hd hall
    have hc : commentChar c = true := hall c (by simp)
    have hrest : ∀ c2 ∈ cs, commentChar c2 = true := fun c2 h2 => hall c2 (by simp [h2])
    simp only [commentChar, Bool.not_eq_true', Bool.or_eq_false_iff, beq_eq_false_iff_ne] at hc
    obtain ⟨⟨⟨h1, h4⟩, h5⟩, h6⟩ := hc
    by_cases h2 : c = ' '
    · subst h2
      simp only [runChars, charToken_ws, step_ws_comment hs hd hcm]
      exact ih { st with chr := st.chr + 1 } hcm hs hd hrest
    · by_cases h3 : c = '#'
      · subst h3
        have hq : ((st.inSingle || st.inDouble) && st.expectingValue) = false := by
          simp [hs, hd]
        simp only [runChars, charToken_hash, step_comment_start hq]
        have hst : ({ st with inComment := true } : PState) = st := by
          cases st; simp_all
        rw [hst]
        exact ih st hcm hs hd hrest
      · have hc2 : plainChar c = true := by
          simp [plainChar, h1, h2, h3, h4, h5, h6]
        simp only [runChars, charToken_plain hc2, step_char_comment c hcm]
        exact ih { st with chr := st.chr + 1 } hcm hs hd hrest

/-! Composition helpers in rewrite-friendly form. -/

theorem runChars_append_ok {st s : PState} (a b : List Char) (h : runChars st a = .ok s) :
    runChars st (a ++ b) = runChars s b := by
  rw [runChars_append a b st, h]

theorem runChars_append_err {st : PState} {e : EnvError} (a b : List Char)
    (h : runChars st a = .error e) : runChars st (a ++ b) = .error e := by
  rw [runChars_append a b st, h]

theorem runChars_cons_next {st s2 : PState} (c : Char) (cs : List Char)
    (h : stepToken st (charToken c) = .next s2) : runChars st (c :: cs) = runChars s2 cs := by
  simp [runChars, h]

theorem runChars_cons_fail {st : PState} {e : EnvError} (c : Char) (cs : List Char)
    (h : stepToken st (charToken c) = .fail e) : runChars st (c :: cs) = .error e := by
  simp [runChars, h]

theorem runChars_nil (st : PState) : runChars st [] = .ok st := rfl

/-! Whole-line lemmas: the effect of one rendered line from a line-start state. -/

theorem lineStart_initState : lineStart initState := by
  simp [lineStart, initState]

theorem lineStart_lineReset {st : PState} (hq1 : st.inSingle = false) (hq2 : st.inDouble = false)
    (m : EnvMap) : lineStart (lineReset st m) := by
  simp [lineStart, lineReset, hq1, hq2]

theorem run_blank_line {st : PState} (h : lineStart st) :
    runChars st [nlChar] = .ok (lineReset st st.map) := by
  obtain ⟨hk, hv, hek, hev, hcm, hen, hs, hd⟩ := h
  rw [runChars_cons_next nlChar [] (by rw [charToken_nl, step_nl_blank hs hd hk hv hen]),
    runChars_nil]

theorem run_comment_line {st : PState} (h : lineStart st) (body : List Char)
    (hb : ∀ c ∈ body, commentChar c = true) :
    runChars st (('#' :: body) ++ [nlChar]) = .ok (lineReset st st.map) := by
  obtain ⟨hk, hv, hek, hev, hcm, hen, hs, hd⟩ := h
  have hq : ((st.inSingle || st.inDouble) && st.expectingValue) = false := by simp [hs, hd]
  obtain ⟨n, hn⟩ := runChars_comment_skip body { st with inComment := true } rfl hs hd hb
  have e1 : runChars st ('#' :: (body ++ [nlChar])) =
      runChars { st with inComment := true } (body ++ [nlChar]) :=
    runChars_cons_next '#' _ (by rw [charToken_hash]; exact step_comment_start hq)
  have e2 : runChars { st with inComment := true } (body ++ [nlChar]) =
      runChars { st with inComment := true, chr := n } [nlChar] :=
    runChars_append_ok _ _ hn
  have e3 : runChars { st with inComment := true, chr := n } [nlChar] =
      .ok (lineReset { st with inComment := true, chr := n }
        ({ st with inComment := true, chr := n } : PState).map) := by
    rw [runChars_cons_next nlChar [] (by
      rw [charToken_nl]
      exact step_nl_blank hs hd hk hv hen), runChars_nil]
  rw [show (('#' :: body) ++ [nlChar] : List Char) = '#' :: (body ++ [nlChar]) from rfl,
    e1, e2, e3]
  simp [lineReset]

theorem run_plain_line {st : PState} (h : lineStart st) (k v : List Char) (hk : k ≠ [])
    (hkc : ∀ c ∈ k, plainChar c = true) (hv : v ≠ []) (hvc : ∀ c ∈ v, plainChar c = true) :
    runChars st ((k ++ '=' :: v) ++ [nlChar]) = .ok (lineReset st (insertEnv st.map k v)) := by
  obtain ⟨hk0, hv0, hek, hev, hcm, hen, hs, hd⟩ := h
  have e1 : runChars st (k ++ ('=' :: (v ++ [nlChar]))) =
      runChars
        { st with
            key := st.key ++ k
            chr := st.chr + k.length }
        ('=' :: (v ++ [nlChar])) :=
    runChars_append_ok _ _ (runChars_key_accum k st hcm hek hkc)
  have e2 : runChars
        { st with
            key := st.key ++ k
            chr := st.chr + k.length }
        ('=' :: (v ++ [nlChar])) =
      runChars
        { st with
            key := st.key ++ k
            chr := st.chr + k.length + 1
            encounteredAssignment := !st.inComment
            expectingKey := false
            expectingValue := true }
        (v ++ [nlChar]) :=
    runChars_cons_next '=' _ (by rw [charToken_assign]; exact step_assign_from_key hs hd hek hv0)
  have e3 : runChars
        { st with
            key := st.key ++ k
            chr := st.chr + k.length + 1
            encounteredAssignment := !st.inComment
            expectingKey := false
            expectingValue := true }
        (v ++ [nlChar]) =
      runChars
        { st with
            key := st.key ++ k
            value := st.value ++ v
            chr := st.chr + k.length + 1 + v.length
            encounteredAssignment := !st.inComment
            expectingKey := false
            expectingValue := true }
        [nlChar] :=
    runChars_append_ok _ _ (runChars_value_accum v _ hcm rfl rfl hvc)
  have e4 : runChars
        { st with
            key := st.key ++ k
            value := st.value ++ v
            chr := st.chr + k.length + 1 + v.length
            encounteredAssignment := !st.inComment
            expectingKey := false
            expectingValue := true }
        [nlChar] =
      .ok (lineReset
        { st with
            key := st.key ++ k
            value := st.value ++ v
            chr := st.chr + k.length + 1 + v.length
            encounteredAssignment := !st.inComment
            expectingKey := false
            expectingValue := true }
        (insertEnv st.map (st.key ++ k) (st.value ++ v))) := by
    rw [runChars_cons_next nlChar [] (by
      rw [charToken_nl]
      exact step_nl_commit hs hd (by simp [hk]) (by simp [hv])), runChars_nil]
  rw [show (k ++ '=' :: v) ++ [nlChar] = k ++ ('=' :: (v ++ [nlChar])) by simp,
    e1, e2, e3, e4]
  simp [lineReset, hk0, hv0]

theorem run_squoted_line {st : PState} (h : lineStart st) (k v : List Char) (hk : k ≠ [])
    (hkc : ∀ c ∈ k, plainChar c = true) (hv : v ≠ []) (hvc : ∀ c ∈ v, c ≠ squoteChar) :
    runChars st ((k ++ '=' :: squoteChar :: (v ++ [squoteChar])) ++ [nlChar]) =
      .ok (lineReset st (insertEnv st.map k v)) := by
  obtain ⟨hk0, hv0, hek, hev, hcm, hen, hs, hd⟩ := h
  have e1 : runChars st (k ++ ('=' :: squoteChar :: (v ++ [squoteChar, nlChar]))) =
      runChars
        { st with
            key := st.key ++ k
            chr := st.chr + k.length }
        ('=' :: squoteChar :: (v ++ [squoteChar, nlChar])) :=
    runChars_append_ok _ _ (runChars_key_accum k st hcm hek hkc)
  have e2 : runChars
        { st with
            key := st.key ++ k
            chr := st.chr + k.length }
        ('=' :: squoteChar :: (v ++ [squoteChar, nlChar])) =
      runChars
        { st with
            key := st.key ++ k
            chr := st.chr + k.length + 1
            encounteredAssignment := !st.inComment
            expectingKey := false
            expectingValue := true }
        (squoteChar :: (v ++ [squoteChar, nlChar])) :=
    runChars_cons_next '=' _ (by rw [charToken_assign]; exact step_assign_from_key hs hd hek hv0)
  have e3 : runChars
        { st with
            key := st.key ++ k
            chr := st.chr + k.length + 1
            encounteredAssignment := !st.inComment
            expectingKey := false
            expectingValue := true }
        (squoteChar :: (v ++ [squoteChar, nlChar])) =
      runChars
        { st with
            key := st.key ++ k
            chr := st.chr + k.length + 1
            encounteredAssignment := !st.inComment
            expectingKey := false
            expectingValue := true
            inSingle := true }
        (v ++ [squoteChar, nlChar]) :=
    runChars_cons_next squoteChar _ (by rw [charToken_sq]; exact step_sq_open hs hd rfl hv0)
  have e4 : runChars
        { st with
            key := st.key ++ k
            chr := st.chr + k.length + 1
            encounteredAssignment := !st.inComment
            expectingKey := false
            expectingValue := true
            inSingle := true }
        (v ++ [squoteChar, nlChar]) =
      runChars
        { st with
            key := st.key ++ k
            value := st.value ++ v
            chr := st.chr + k.length + 1 + bumps v
            encounteredAssignment := !st.inComment
            expectingKey := false
            expectingValue := true
            inSingle := true }
        [squoteChar, nlChar] :=
    runChars_append_ok _ _ (runChars_squote_accum v _ rfl hd rfl rfl hcm hvc)
  have e5 : runChars
        { st with
            key := st.key ++ k
            value := st.value ++ v
            chr := st.chr + k.length + 1 + bumps v
            encounteredAssignment := !st.inComment
            expectingKey := false
            expectingValue := true
            inSingle := true }
        [squoteChar, nlChar] =
      runChars
        { st with
            key := st.key ++ k
            value := st.value ++ v
            chr := st.chr + k.length + 1 + bumps v
            encounteredAssignment := !st.inComment
            expectingKey := false
            expectingValue := false
            inSingle := false }
        [nlChar] :=
    runChars_cons_next squoteChar _ (by rw [charToken_sq]; exact step_sq_close rfl hd)
  have e6 : runChars
        { st with
            key := st.key ++ k
            value := st.value ++ v
            chr := st.chr + k.length + 1 + bumps v
            encounteredAssignment := !st.inComment
            expectingKey := false
            expectingValue := false
            inSingle := false }
        [nlChar] =
      .ok (lineReset
        { st with
            key := st.key ++ k
            value := st.value ++ v
            chr := st.chr + k.length + 1 + bumps v
            encounteredAssignment := !st.inComment
            expectingKey := false
            expectingValue := false
            inSingle := false }
        (insertEnv st.map (st.key ++ k) (st.value ++ v))) := by
    rw [runChars_cons_next nlChar [] (by
      rw [charToken_nl]
      exact step_nl_commit (by simp [hs]) (by simp [hd]) (by simp [hk]) (by simp [hv])),
      runChars_nil]
  rw [show (k ++ '=' :: squoteChar :: (v ++ [squoteChar])) ++ [nlChar]
      = k ++ ('=' :: squoteChar :: (v ++ [squoteChar, nlChar])) by simp,
    e1, e2, e3, e4, e5, e6]
  simp [lineReset, hk0, hv0, hs, hd]

theorem run_dquoted_line {st : PState} (h : lineStart st) (k v : List Char) (hk : k ≠ [])
    (hkc : ∀ c ∈ k, plainChar c = true) (hv : v ≠ []) (hvc : ∀ c ∈ v, c ≠ dquoteChar) :
    runChars st ((k ++ '=' :: dquoteChar :: (v ++ [dquoteChar])) ++ [nlChar]) =
      .ok (lineReset st (insertEnv st.map k v)) := by
  obtain ⟨hk0, hv0, hek, hev, hcm, hen, hs, hd⟩ := h
  have e1 : runChars st (k ++ ('=' :: dquoteChar :: (v ++ [dquoteChar, nlChar]))) =
      runChars
        { st with
            key := st.key ++ k
            chr := st.chr + k.length }
        ('=' :: dquoteChar :: (v ++ [dquoteChar, nlChar])) :=
    runChars_append_ok _ _ (runChars_key_accum k st hcm hek hkc)
  have e2 : runChars
        { st with
            key := st.key ++ k
            chr := st.chr + k.length }
        ('=' :: dquoteChar :: (v ++ [dquoteChar, nlChar])) =
      runChars
        { st with
            key := st.key ++ k
            chr := st.chr + k.length + 1
            encounteredAssignment := !st.inComment
            expectingKey := false
            expectingValue := true }
        (dquoteChar :: (v ++ [dquoteChar, nlChar])) :=
    runChars_cons_next '=' _ (by rw [charToken_assign]; exact step_assign_from_key hs hd hek hv0)
  have e3 : runChars
        { st with
            key := st.key ++ k
            chr := st.chr + k.length + 1
            encounteredAssignment := !st.inComment
            expectingKey := false
            expectingValue := true }
        (dquoteChar :: (v ++ [dquoteChar, nlChar])) =
      runChars
        { st with
            key := st.key ++ k
            chr := st.chr + k.length + 1
            encounteredAssignment := !st.inComment
            expectingKey := false
            expectingValue := true
            inDouble := true }
        (v ++ [dquoteChar, nlChar]) :=
    runChars_cons_next dquoteChar _ (by rw [charToken_dq]; exact step_dq_open hs hd rfl hv0)
  have e4 : runChars
        { st with
            key := st.key ++ k
            chr := st.chr + k.length + 1
            encounteredAssignment := !st.inComment
            expectingKey := false
            expectingValue := true
            inDouble := true }
        (v ++ [dquoteChar, nlChar]) =
      runChars
        { st with
            key := st.key ++ k
            value := st.value ++ v
            chr := st.chr + k.length + 1 + bumps v
            encounteredAssignment := !st.inComment
            expectingKey := false
            expectingValue := true
            inDouble := true }
        [dquoteChar, nlChar] :=
    runChars_append_ok _ _ (runChars_dquote_accum v _ hs rfl rfl rfl hcm hvc)
  have e5 : runChars
        { st with
            key := st.key ++ k
            value := st.value ++ v
            chr := st.chr + k.length + 1 + bumps v
            encounteredAssignment := !st.inComment
            expectingKey := false
            expectingValue := true
            inDouble := true }
        [dquoteChar, nlChar] =
      runChars
        { st with
            key := st.key ++ k
            value := st.value ++ v
            chr := st.chr + k.length + 1 + bumps v
            encounteredAssignment := !st.inComment
            expectingKey := false
            expectingValue := false
            inDouble := false }
        [nlChar] :=
    runChars_cons_next dquoteChar _ (by rw [charToken_dq]; exact step_dq_close hs rfl)
  have e6 : runChars
        { st with
            key := st.key ++ k
            value := st.value ++ v
            chr := st.chr + k.length + 1 + bumps v
            encounteredAssignment := !st.inComment
            expectingKey := false
            expectingValue := false
            inDouble := false }
        [nlChar] =
      .ok (lineReset
        { st with
            key := st.key ++ k
            value := st.value ++ v
            chr := st.chr + k.length + 1 + bumps v
            encounteredAssignment := !st.inComment
            expectingKey := false
            expectingValue := false
            inDouble := false }
        (insertEnv st.map (st.key ++ k) (st.value ++ v))) := by
    rw [runChars_cons_next nlChar [] (by
      rw [charToken_nl]
      exact step_nl_commit (by simp [hs]) (by simp [hd]) (by simp [hk]) (by simp [hv])),
      runChars_nil]
  rw [show (k ++ '=' :: dquoteChar :: (v ++ [dquoteChar])) ++ [nlChar]
      = k ++ ('=' :: dquoteChar :: (v ++ [dquoteChar, nlChar])) by simp,
    e1, e2, e3, e4, e5, e6]
  simp [lineReset, hk0, hv0, hs, hd]

/-! Running a whole well-formed text, line by line. -/

theorem renderLines_nil : renderLines [] = [] := rfl

theorem renderLines_cons (l : Line) (ls : List Line) :
    renderLines (l :: ls) = (l.render ++ [nlChar]) ++ renderLines ls := rfl

theorem ne_nil_of_isEmpty_false {l : List Char} (h : l.isEmpty = false) : l ≠ [] := by
  intro h2; subst h2; simp at h

theorem run_render_lines : ∀ (ls : List Line) (st : PState), lineStart st →
    (∀ l ∈ ls, l.wf = true) →
    ∃ s2, runChars st (renderLines ls) = .ok s2 ∧ lineStart s2 ∧
      s2.map = (ls.filterMap Line.pair).foldl (fun m p => insertEnv m p.1 p.2) st.map := by
  intro ls
  induction ls with
  | nil =>
    intro st h _
    exact ⟨st, by rw [renderLines_nil, runChars_nil], h, by simp⟩
  | cons l ls ih =>
    intro st h hwf
    have hl : l.wf = true := hwf l (by simp)
    have hrest : ∀ l2 ∈ ls, l2.wf = true := fun l2 h2 => hwf l2 (by simp [h2])
    have hq1 : st.inSingle = false := h.2.2.2.2.2.2.1
    have hq2 : st.inDouble = false := h.2.2.2.2.2.2.2
    cases l with
    | blank =>
      obtain ⟨s2, hrun, hls, hmap⟩ :=
        ih (lineReset st st.map) (lineStart_lineReset hq1 hq2 _) hrest
      refine ⟨s2, ?_, hls, ?_⟩
      · rw [renderLines_cons]
        exact (runChars_append_ok _ _ (run_blank_line h)).trans hrun
      · rw [hmap]
        simp [Line.pair, lineReset]
    | comment body =>
      have hb : ∀ c ∈ body, commentChar c = true := by
        simpa [Line.wf, List.all_eq_true] using hl
      obtain ⟨s2, hrun, hls, hmap⟩ :=
        ih (lineReset st st.map) (lineStart_lineReset hq1 hq2 _) hrest
      refine ⟨s2, ?_, hls, ?_⟩
      · rw [renderLines_cons]
        exact (runChars_append_ok _ _ (run_comment_line h body hb)).trans hrun
      · rw [hmap]
        simp [Line.pair, lineReset]
    | plain k v =>
      simp only [Line.wf, Bool.and_eq_true, Bool.not_eq_true', List.all_eq_true] at hl
      obtain ⟨⟨⟨hk, hkc⟩, hv⟩, hvc⟩ := hl
      obtain ⟨s2, hrun, hls, hmap⟩ :=
        ih (lineReset st (insertEnv st.map k v)) (lineStart_lineReset hq1 hq2 _) hrest
      refine ⟨s2, ?_, hls, ?_⟩
      · rw [renderLines_cons]
        exact (runChars_append_ok _ _ (run_plain_line h k v
          (ne_nil_of_isEmpty_false hk) hkc (ne_nil_of_isEmpty_false hv) hvc)).trans hrun
      · rw [hmap]
        simp [Line.pair, lineReset]
    | squoted k v =>
      simp only [Line.wf, Bool.and_eq_true, Bool.not_eq_true', List.all_eq_true, Bool.or_eq_false_iff, beq_eq_false_iff_ne] at hl
      obtain ⟨⟨⟨hk, hkc⟩, hv⟩, hvc⟩ := hl
      obtain ⟨s2, hrun, hls, hmap⟩ :=
        ih (lineReset st (insertEnv st.map k v)) (lineStart_lineReset hq1 hq2 _) hrest
      refine ⟨s2, ?_, hls, ?_⟩
      · rw [renderLines_cons]
        exact (runChars_append_ok _ _ (run_squoted_line h k v
          (ne_nil_of_isEmpty_false hk) hkc (ne_nil_of_isEmpty_false hv)
          (fun c hc => (hvc c hc).1))).trans hrun
      · rw [hmap]
        simp [Line.pair, lineReset]
    | dquoted k v =>
      simp only [Line.wf, Bool.and_eq_true, Bool.not_eq_true', List.all_eq_true, Bool.or_eq_false_iff, beq_eq_false_iff_ne] at hl
      obtain ⟨⟨⟨hk, hkc⟩, hv⟩, hvc⟩ := hl
      obtain ⟨s2, hrun, hls, hmap⟩ :=
        ih (lineReset st (insertEnv st.map k v)) (lineStart_lineReset hq1 hq2 _) hrest
      refine ⟨s2, ?_, hls, ?_⟩
      · rw [renderLines_cons]
        exact (runChars_append_ok _ _ (run_dquoted_line h k v
          (ne_nil_of_isEmpty_false hk) hkc (ne_nil_of_isEmpty_false hv)
          (fun c hc => (hvc c hc).1))).trans hrun
      · rw [hmap]
        simp [Line.pair, lineReset]

/-! Association-list facts about `insertEnv`, `lookupEnv` and `lastAssign`. -/

theorem find?_filter_ne (m : EnvMap) (k k2 : Str) (h : k ≠ k2) :
    (m.filter (fun p => !decide (p.1 = k2))).find? (fun p => decide (p.1 = k)) =
      m.find? (fun p => decide (p.1 = k)) := by
  induction m with
  | nil => rfl
  | cons p m ih =>
    have h2 : ¬(k2 = k) := fun e => h e.symm
    by_cases hp : p.1 = k2
    · have : ¬(p.1 = k) := fun hh => h (hh ▸ hp)
      simp [hp, this, List.find?, ih, h2]
    · by_cases hpk : p.1 = k
      · simp [List.filter, hp, List.find?, hpk, h]
      · simp [List.filter, hp, List.find?, hpk, ih, h]

theorem lookupEnv_insert (m : EnvMap) (k2 v k : Str) :
    lookupEnv (insertEnv m k2 v) k = if k = k2 then some v else lookupEnv m k := by
  unfold lookupEnv insertEnv
  rw [List.find?_append]
  by_cases h : k = k2
  · subst h
    have hnone : (m.filter (fun p => !decide (p.1 = k))).find? (fun p => decide (p.1 = k))
        = none := by
      rw [List.find?_eq_none]
      intro p hp
      have := (List.mem_filter.mp hp).2
      simp at this
      simp [this]
    simp [hnone, List.find?]
  · rw [find?_filter_ne m k k2 h]
    cases hf : m.find? (fun p => decide (p.1 = k)) with
    | some p => simp [h]
    | none =>
      have : ¬(k2 = k) := fun h2 => h h2.symm
      simp [h, List.find?, this]

theorem keys_nodup_insert (m : EnvMap) (k v : Str) (h : (m.map Prod.fst).Nodup) :
    ((insertEnv m k v).map Prod.fst).Nodup := by
  unfold insertEnv
  rw [List.map_append, List.nodup_append]
  refine ⟨((List.filter_sublist m).map Prod.fst).nodup h, by simp, ?_⟩
  intro x hx
  simp only [List.mem_map] at hx
  obtain ⟨p, hp, hpx⟩ := hx
  have := (List.mem_filter.mp hp).2
  simp only [Bool.not_eq_true', decide_eq_false_iff_not] at this
  simp [← hpx, this]

theorem lastAssign_cons_some (p : Str × Str) (ps : List (Str × Str)) (k : Str) (v : Str)
    (h : lastAssign ps k = some v) : lastAssign (p :: ps) k = some v := by
  unfold lastAssign at *
  obtain ⟨q, hq, hqv⟩ := Option.map_eq_some'.mp h
  rw [show (p :: ps).reverse = ps.reverse ++ [p] by simp, List.find?_append, hq]
  simp [hqv]

theorem lastAssign_cons_none (p : Str × Str) (ps : List (Str × Str)) (k : Str)
    (h : lastAssign ps k = none) :
    lastAssign (p :: ps) k = if p.1 = k then some p.2 else none := by
  unfold lastAssign at *
  have hq : ps.reverse.find? (fun q => decide (q.1 = k)) = none := by
    cases hf : ps.reverse.find? (fun q => decide (q.1 = k)) with
    | none => rfl
    | some q => rw [hf] at h; simp at h
  rw [show (p :: ps).reverse = ps.reverse ++ [p] by simp, List.find?_append, hq]
  by_cases hk : p.1 = k
  · simp [List.find?, hk]
  · simp [List.find?, hk]

theorem lookup_foldl_insert : ∀ (ps : List (Str × Str)) (m : EnvMap) (k : Str),
    lookupEnv (ps.foldl (fun a p => insertEnv a p.1 p.2) m) k =
      match lastAssign ps k with
      | some v => some v
      | none => lookupEnv m k := by
  intro ps
  induction ps with
  | nil => intro m k; simp [lastAssign]
  | cons p ps ih =>
    intro m k
    rw [List.foldl_cons, ih]
    cases hl : lastAssign ps k with
    | some v => rw [lastAssign_cons_some p ps k v hl]
    | none =>
      rw [lastAssign_cons_none p ps k hl, lookupEnv_insert]
      by_cases hk : p.1 = k
      · subst hk
        simp
      · have : ¬(k = p.1) := fun h2 => hk h2.symm
        simp [hk, this]

theorem keys_nodup_foldl : ∀ (ps : List (Str × Str)) (m : EnvMap),
    (m.map Prod.fst).Nodup →
    (((ps.foldl (fun a p => insertEnv a p.1 p.2) m)).map Prod.fst).Nodup := by
  intro ps
  induction ps with
  | nil => intro m h; exact h
  | cons p ps ih =>
    intro m h
    rw [List.foldl_cons]
    exact ih _ (keys_nodup_insert m p.1 p.2 h)

theorem filter_eq_of_fresh (m : EnvMap) (k : Str) (h : k ∉ m.map Prod.fst) :
    m.filter (fun p => !decide (p.1 = k)) = m := by
  rw [List.filter_eq_self]
  intro p hp
  have : p.1 ≠ k := by
    intro h2
    exact h (by simp only [List.mem_map]; exact ⟨p, hp, h2⟩)
  simp [this]

theorem foldl_insert_fresh : ∀ (m acc : EnvMap), (((acc ++ m).map Prod.fst)).Nodup →
    m.foldl (fun a p => insertEnv a p.1 p.2) acc = acc ++ m := by
  intro m
  induction m with
  | nil => intro acc _; simp
  | cons p m ih =>
    intro acc h
    have hfresh : p.1 ∉ acc.map Prod.fst := by
      rw [List.map_append, List.nodup_append] at h
      intro hx
      exact h.2.2 hx (by simp)
    have hins : insertEnv acc p.1 p.2 = acc ++ [p] := by
      unfold insertEnv
      rw [filter_eq_of_fresh acc p.1 hfresh]
    rw [List.foldl_cons, hins, ih (acc ++ [p]) (by simpa using h)]
    simp

/-! Bridging `serialize_new_env` output to rendered plain lines. -/

theorem serializeContent_eq_render (m : EnvMap) :
    serializeContent m = renderLines (m.map (fun p => Line.plain p.1 p.2)) := by
  induction m with
  | nil => rfl
  | cons p m ih =>
    simp only [serializeContent, List.map_cons, concatAll, renderLines] at *
    rw [ih]
    simp [Line.render]

theorem pairs_of_plain (m : EnvMap) :
    (m.map (fun p => Line.plain p.1 p.2)).filterMap Line.pair = m := by
  induction m with
  | nil => rfl
  | cons p m ih => simp [Line.pair, ih]

/-! Invariant machinery: properties preserved by every loop iteration. -/

theorem runChars_inv (P : PState → Prop)
    (hstep : ∀ s c s2, stepToken s (charToken c) = .next s2 → P s → P s2) :
    ∀ (cs : List Char) (s s2 : PState), P s → runChars s cs = .ok s2 → P s2 := by
  intro cs
  induction cs with
  | nil =>
    intro s s2 hP h
    simp only [runChars, Except.ok.injEq] at h
    exact h ▸ hP
  | cons c cs ih =>
    intro s s2 hP h
    simp only [runChars] at h
    cases hst : stepToken s (charToken c) with
    | next s3 =>
      rw [hst] at h
      simp only at h
      exact ih s3 s2 (hstep s c s3 hst hP) h
    | fail e => rw [hst] at h; simp at h
    | done m => rw [hst] at h; simp at h

theorem step_notBothExpect (s : PState) (t : EnvToken) (s2 : PState)
    (h : stepToken s t = .next s2)
    (hP : ¬(s.expectingKey = true ∧ s.expectingValue = true)) :
    ¬(s2.expectingKey = true ∧ s2.expectingValue = true) := by
  cases t <;> simp only [stepToken] at h <;> (repeat' split at h) <;>
    first
      | exact StepOut.noConfusion h
      | (injection h with h2; subst h2; simp_all)

theorem step_quote_line (s : PState) (t : EnvToken) (s2 : PState)
    (h : stepToken s t = .next s2) (hq : (s2.inSingle || s2.inDouble) = true) :
    s2.line = s.line := by
  cases t <;> simp only [stepToken] at h <;> (repeat' split at h) <;>
    first
      | exact StepOut.noConfusion h
      | (injection h with h2; subst h2; simp_all)

theorem stayInQuote_run : ∀ (cs : List Char) (s : PState),
    (s.inSingle || s.inDouble) = true → stayInQuote s cs = true →
    ∃ s2, runChars s cs = .ok s2 ∧ (s2.inSingle || s2.inDouble) = true ∧ s2.line = s.line := by
  intro cs
  induction cs with
  | nil => intro s hq _; exact ⟨s, rfl, hq, rfl⟩
  | cons c cs ih =>
    intro s hq hst
    simp only [stayInQuote] at hst
    cases h : stepToken s (charToken c) with
    | next s3 =>
      rw [h] at hst
      simp only [Bool.and_eq_true] at hst
      obtain ⟨hq3, hst3⟩ := hst
      obtain ⟨s2, hrun, hq2, hline⟩ := ih s3 hq3 hst3
      exact ⟨s2, by rw [runChars_cons_next c cs h]; exact hrun, hq2,
        by rw [hline, step_quote_line s (charToken c) s3 h hq3]⟩
    | fail e => rw [h] at hst; simp at hst
    | done m => rw [h] at hst; simp at hst

/-- All entries of the map have non-empty keys and values. -/
def mapOK (m : EnvMap) : Prop := ∀ p ∈ m, p.1 ≠ [] ∧ p.2 ≠ []

theorem mapOK_insert {m : EnvMap} {k v : Str} (h : mapOK m) (hk : k ≠ []) (hv : v ≠ []) :
    mapOK (insertEnv m k v) := by
  intro p hp
  unfold insertEnv at hp
  rcases List.mem_append.mp hp with h1 | h1
  · exact h p (List.mem_filter.mp h1).1
  · simp only [List.mem_singleton] at h1
    subst h1
    exact ⟨hk, hv⟩

theorem step_next_mapOK (s : PState) (t : EnvToken) (s2 : PState)
    (h : stepToken s t = .next s2) (hm : mapOK s.map) : mapOK s2.map := by
  cases t <;> simp only [stepToken] at h <;> (repeat' split at h) <;>
    first
      | exact StepOut.noConfusion h
      | (injection h with h2; subst h2
         first
           | exact hm
           | (rename_i hcond
              simp only [Bool.and_eq_true, Bool.not_eq_true'] at hcond
              exact mapOK_insert hm (ne_nil_of_isEmpty_false hcond.1)
                (ne_nil_of_isEmpty_false hcond.2)))

theorem step_done_mapOK (s : PState) (t : EnvToken) (m2 : EnvMap)
    (h : stepToken s t = .done m2) (hm : mapOK s.map) : mapOK m2 := by
  cases t <;> simp only [stepToken] at h <;> (repeat' split at h) <;>
    first
      | exact StepOut.noConfusion h
      | (injection h with h2; subst h2
         first
           | exact hm
           | (rename_i hcond
              simp only [Bool.and_eq_true, Bool.not_eq_true'] at hcond
              exact mapOK_insert hm (ne_nil_of_isEmpty_false hcond.1)
                (ne_nil_of_isEmpty_false hcond.2)))

theorem parseLoop_mapOK : ∀ (ts : List EnvToken) (s : PState) (m : EnvMap),
    mapOK s.map → parseLoop s ts = .ok m → mapOK m := by
  intro ts
  induction ts with
  | nil =>
    intro s m hm h
    simp only [parseLoop, Except.ok.injEq] at h
    exact h ▸ hm
  | cons t ts ih =>
    intro s m hm h
    simp only [parseLoop] at h
    cases hst : stepToken s t with
    | next s3 =>
      rw [hst] at h
      simp only at h
      exact ih s3 m (step_next_mapOK s t s3 hst hm) h
    | fail e => rw [hst] at h; simp at h
    | done m2 =>
      rw [hst] at h
      simp only [Except.ok.injEq] at h
      exact h ▸ step_done_mapOK s t m2 hst hm

/-! Final plumbing before the claim theorems. -/

theorem process_runChars_ok (cs : List Char) (s : PState)
    (h : runChars initState cs = .ok s) : process_dot_env cs = eofFinish s := by
  rw [process_runChars, h]

theorem process_runChars_err (cs : List Char) (e : EnvError)
    (h : runChars initState cs = .error e) : process_dot_env cs = .error e := by
  rw [process_runChars, h]

theorem step_nl_missing_key_no_assign {st : PState} (hq1 : st.inSingle = false)
    (hq2 : st.inDouble = false) (he : st.encounteredAssignment = false) (hk : st.key = [])
    (hv : st.value ≠ []) :
    stepToken st .NewLine = .fail (.MissingKey st.line) := by
  simp [stepToken, hq1, hq2, he, hk, isEmpty_false_of_ne_nil hv]

/-! Claim C1. -/

/-- Claim C1, amended: for a text whose lines are blank lines, comment lines
free of assignment operators and quotation marks, or well-formed
`KEY=VALUE` / `KEY='VALUE'` / `KEY="VALUE"` lines (non-empty plain key,
non-empty value), `process_dot_env` succeeds with a mapping that has exactly
one entry per distinct key and maps each key to the value of its last
occurrence. -/
theorem c1_wellformed_last_wins (ls : List Line) (h : ∀ l ∈ ls, l.wf = true) :
    ∃ m, process_dot_env (renderLines ls) = .ok m ∧ (m.map Prod.fst).Nodup ∧
      ∀ k, lookupEnv m k = lastAssign (ls.filterMap Line.pair) k := by
  obtain ⟨s2, hrun, hls, hmap⟩ := run_render_lines ls initState lineStart_initState h
  refine ⟨s2.map, ?_, ?_, ?_⟩
  · rw [process_runChars_ok _ _ hrun]
    exact eofFinish_blank hls.2.2.2.2.2.2.1 hls.2.2.2.2.2.2.2 hls.1 hls.2.1
  · rw [hmap]
    exact keys_nodup_foldl _ _ (by simp [initState])
  · intro k
    rw [hmap, lookup_foldl_insert]
    cases lastAssign (ls.filterMap Line.pair) k with
    | some v => rfl
    | none => rfl

/-- Claim C1, witness: a concrete well-formed text with a repeated key, a
comment line, a blank line and a quoted value. -/
theorem c1_wellformed_last_wins_witness :
    ∃ m, process_dot_env (renderLines
        [.plain ['A'] ['1'], .comment [' ', 'x'], .blank,
         .plain ['A'] ['2'], .squoted ['B'] ['x', ' ', 'y']]) = .ok m ∧
      (m.map Prod.fst).Nodup ∧
      ∀ k, lookupEnv m k = lastAssign
        (([.plain ['A'] ['1'], .comment [' ', 'x'], .blank,
           .plain ['A'] ['2'],
           .squoted ['B'] ['x', ' ', 'y']] : List Line).filterMap Line.pair) k :=
  c1_wellformed_last_wins _ (by decide)

/-- Claim C1, counterexample to the claim as stated: in `K=V\n#'\n` every
non-blank, non-comment line has the form `KEY=VALUE`, yet parsing fails,
because a quotation mark inside a comment is processed, not discarded; in
`K=V\n#==\n` a repeated assignment operator inside a comment likewise aborts
the parse. -/
theorem c1_counterexample :
    Line.wf (.plain ['K'] ['V']) = true ∧
    process_dot_env (renderLines [.plain ['K'] ['V'], .comment [squoteChar]]) =
      .error (.UnexpectedToken "key or assignment operator" "single quote mark" 2 0) ∧
    process_dot_env (renderLines [.plain ['K'] ['V'], .comment ['=', '=']]) =
      .error (.ExpectedValueButFoundAssignment 2 1) := by decide

/-! Claim C7. -/

/-- Claim C7: an explicitly empty quoted value, single or double quoted, makes
`process_dot_env` fail with `MissingValue` for line 1 instead of succeeding
with an empty-string entry. -/
theorem c7_empty_quoted_value_missing_value :
    process_dot_env ['K', 'E', 'Y', '=', squoteChar, squoteChar, nlChar] =
      .error (.MissingValue 1) ∧
    process_dot_env ['K', 'E', 'Y', '=', dquoteChar, dquoteChar, nlChar] =
      .error (.MissingValue 1) := by decide

/-! Claim C10. -/

/-- Claim C10: every mapping returned by a successful `process_dot_env` contains
only entries whose key and value are both non-empty. -/
theorem c10_entries_nonempty (cs : List Char) (m : EnvMap)
    (h : process_dot_env cs = .ok m) : ∀ p ∈ m, p.1 ≠ [] ∧ p.2 ≠ [] :=
  parseLoop_mapOK (lex_dot_env cs) initState m (by intro p hp; simp [initState] at hp) h

/-- Claim C10, witness: the single entry of the parse of `A=B` followed by a
newline has a non-empty key and a non-empty value. -/
theorem c10_entries_nonempty_witness :
    (['A'] : Str) ≠ [] ∧ (['B'] : Str) ≠ [] :=
  c10_entries_nonempty ['A', '=', 'B', nlChar] [(['A'], ['B'])] (by decide)
    (['A'], ['B']) (by decide)

/-! Claim C4. -/

/-- Claim C4: if a single or double quote is opened (a step from an
out-of-quote state into a quote state) and the parser stays inside the quote
for the whole remainder of the input, `process_dot_env` returns
`UnclosedValue` carrying the line counter at the moment the quote was opened,
even if the quoted region contains embedded newlines. -/
theorem c4_unclosed_quote_line (pre : List Char) (q : Char) (rest : List Char)
    (s0 s1 : PState) (h0 : runChars initState pre = .ok s0)
    (hq0 : s0.inSingle = false ∧ s0.inDouble = false)
    (hstep : stepToken s0 (charToken q) = .next s1)
    (hq1 : (s1.inSingle || s1.inDouble) = true)
    (hstay : stayInQuote s1 rest = true) :
    process_dot_env (pre ++ q :: rest) = .error (.UnclosedValue s0.line) := by
  obtain ⟨s2, hrun, hq2, hline⟩ := stayInQuote_run rest s1 hq1 hstay
  have hline1 : s1.line = s0.line := step_quote_line s0 (charToken q) s1 hstep hq1
  have hr : runChars initState (pre ++ q :: rest) = .ok s2 := by
    rw [runChars_append_ok pre (q :: rest) h0, runChars_cons_next q rest hstep]
    exact hrun
  rw [process_runChars_ok _ _ hr, eofFinish_unclosed hq2, hline, hline1]

/-- Claim C4, witness: the quote of `K='V` is opened on line 1 and the input
ends two characters after an embedded newline; the error still reports
line 1. -/
theorem c4_unclosed_quote_line_witness :
    process_dot_env (['K', '='] ++ squoteChar :: ['V', nlChar, 'X']) =
      .error (.UnclosedValue 1) :=
  c4_unclosed_quote_line ['K', '='] squoteChar ['V', nlChar, 'X']
    { map := [], line := 1, chr := 3, key := ['K'], value := [],
      expectingKey := false, expectingValue := true, inComment := false,
      encounteredAssignment := true, inSingle := false, inDouble := false }
    { map := [], line := 1, chr := 3, key := ['K'], value := [],
      expectingKey := false, expectingValue := true, inComment := false,
      encounteredAssignment := true, inSingle := true, inDouble := false }
    (by decide) (by decide) (by decide) (by decide) (by decide)

/-! Claim C6. -/

/-- Claim C6, amended: while `in_a_comment` is set and the parser is outside
quotes, every plain character, whitespace and `#` token is discarded — the
step succeeds and changes at most the column counter, leaving the map, the
key and value buffers, the line counter and all flags untouched. Assignment
operators and quotation marks inside comments are not inert: they can change
parser flags or abort the parse (see the counterexample). -/
theorem c6_comment_inert (s : PState) (t : EnvToken) (hc : s.inComment = true)
    (h1 : s.inSingle = false) (h2 : s.inDouble = false)
    (ht : t ≠ .AssignmentOperator ∧ t ≠ .NewLine ∧ t ≠ .Eof ∧
      t ≠ .SingleQuoteMark ∧ t ≠ .DoubleQuoteMark) :
    ∃ n, stepToken s t = .next { s with chr := n } := by
  obtain ⟨ha, hn, he, hsq, hdq⟩ := ht
  cases t with
  | Character c => exact ⟨s.chr + 1, step_char_comment c hc⟩
  | Whitespace => exact ⟨s.chr + 1, step_ws_comment h1 h2 hc⟩
  | Comment =>
    refine ⟨s.chr, ?_⟩
    rw [step_comment_start (by simp [h1, h2])]
    congr 1
    cases s
    simp_all
  | AssignmentOperator => exact absurd rfl ha
  | NewLine => exact absurd rfl hn
  | Eof => exact absurd rfl he
  | SingleQuoteMark => exact absurd rfl hsq
  | DoubleQuoteMark => exact absurd rfl hdq

/-- Claim C6, witness: a plain character inside a comment is discarded. -/
theorem c6_comment_inert_witness :
    ∃ n, stepToken
      { map := [], line := 1, chr := 5, key := [], value := [],
        expectingKey := true, expectingValue := false, inComment := true,
        encounteredAssignment := false, inSingle := false, inDouble := false }
      (.Character 'x') =
      .next
        { map := [], line := 1, chr := n, key := [], value := [],
          expectingKey := true, expectingValue := false, inComment := true,
          encounteredAssignment := false, inSingle := false, inDouble := false } :=
  c6_comment_inert _ _ rfl rfl rfl (by decide)

/-- Claim C6, counterexample to the claim as stated: a single quote inside a
comment raises `UnexpectedToken`, and a second `=` inside a pure comment line
raises `ExpectedValueButFoundAssignment`, so comment content can affect the
parse result; a comment of plain characters is indeed harmless. -/
theorem c6_counterexample :
    process_dot_env ['#', squoteChar, nlChar] =
      .error (.UnexpectedToken "key or assignment operator" "single quote mark" 1 1) ∧
    process_dot_env ['#', '=', '=', nlChar] =
      .error (.ExpectedValueButFoundAssignment 1 2) ∧
    process_dot_env ['#', 'a', nlChar] = .ok [] := by decide

/-! Claim C8. -/

/-- Claim C8, amended: serialising a mapping whose keys are distinct and whose
keys and values are non-empty and contain none of `=`, space, `#`, newline or
quotation marks, then parsing the produced text, returns exactly the same
mapping. Spaces and the key-side restrictions are necessary: see the
counterexample. -/
theorem c8_serialize_roundtrip (m : EnvMap) (hnodup : (m.map Prod.fst).Nodup)
    (hok : ∀ p ∈ m, p.1 ≠ [] ∧ (∀ c ∈ p.1, plainChar c = true) ∧
      p.2 ≠ [] ∧ (∀ c ∈ p.2, plainChar c = true)) :
    process_dot_env (serializeContent m) = .ok m := by
  rw [serializeContent_eq_render]
  have hwf : ∀ l ∈ m.map (fun p => Line.plain p.1 p.2), l.wf = true := by
    intro l hl
    simp only [List.mem_map] at hl
    obtain ⟨p, hp, hpl⟩ := hl
    obtain ⟨h1, h2, h3, h4⟩ := hok p hp
    subst hpl
    simp only [Line.wf, Bool.and_eq_true, Bool.not_eq_true', List.all_eq_true]
    exact ⟨⟨⟨isEmpty_false_of_ne_nil h1, h2⟩, isEmpty_false_of_ne_nil h3⟩, h4⟩
  obtain ⟨s2, hrun, hls, hmap⟩ :=
    run_render_lines (m.map (fun p => Line.plain p.1 p.2)) initState lineStart_initState hwf
  rw [process_runChars_ok _ _ hrun,
    eofFinish_blank hls.2.2.2.2.2.2.1 hls.2.2.2.2.2.2.2 hls.1 hls.2.1, hmap, pairs_of_plain]
  rw [show initState.map = ([] : EnvMap) from rfl]
  rw [foldl_insert_fresh m [] (by simpa using hnodup)]
  simp

/-- Claim C8, witness: the mapping `A` to `B` round-trips. -/
theorem c8_serialize_roundtrip_witness :
    process_dot_env (serializeContent [(['A'], ['B'])]) = .ok [(['A'], ['B'])] :=
  c8_serialize_roundtrip _ (by decide) (by decide)

/-- Claim C8, counterexample to the claim as stated: the value `a b` contains
none of `=`, `#`, quote or newline, yet `K=a b` does not parse back; a key
containing a space or an empty value also breaks the round trip. -/
theorem c8_counterexample :
    (['a', ' ', 'b'].all (fun c =>
      !(c == '=' || c == '#' || c == squoteChar || c == dquoteChar || c == nlChar))) = true ∧
    process_dot_env (serializeContent [(['K'], ['a', ' ', 'b'])]) =
      .error (.UnexpectedToken "comment of new line" "b" 1 6) ∧
    process_dot_env (serializeContent [(['A', ' ', 'B'], ['v'])]) =
      .error (.UnexpectedToken "key or comment symbol" " " 1 3) ∧
    process_dot_env (serializeContent [(['K'], [])]) = .error (.MissingValue 1) := by decide

/-! Claim C9. -/

/-- Claim C9, amended: in every state reachable by the parser, `expecting_key`
and `expecting_value` are never both true. The other claimed half of the
invariant is false: both quote flags can be simultaneously true (see the
counterexample). -/
theorem c9_never_both_expecting (cs : List Char) (s : PState)
    (h : runChars initState cs = .ok s) :
    ¬(s.expectingKey = true ∧ s.expectingValue = true) :=
  runChars_inv (fun st => ¬(st.expectingKey = true ∧ st.expectingValue = true))
    (fun s c s2 hst hP => step_notBothExpect s (charToken c) s2 hst hP)
    cs initState s (by simp [initState]) h

/-- Claim C9, witness: the state after `K=`. -/
theorem c9_never_both_expecting_witness :
    ¬(PState.expectingKey
        { map := [], line := 1, chr := 3, key := ['K'], value := [],
          expectingKey := false, expectingValue := true, inComment := false,
          encounteredAssignment := true, inSingle := false, inDouble := false } = true ∧
      PState.expectingValue
        { map := [], line := 1, chr := 3, key := ['K'], value := [],
          expectingKey := false, expectingValue := true, inComment := false,
          encounteredAssignment := true, inSingle := false, inDouble := false } = true) :=
  c9_never_both_expecting ['K', '='] _ (by decide)

/-- Claim C9, counterexample to the claim as stated: after `K= '"` both
`in_single_quoted_string` and `in_double_quoted_string` are true, so at most
one quote flag being set is not an invariant of the parser. -/
theorem c9_counterexample :
    runChars initState ['K', '=', ' ', squoteChar, dquoteChar] =
      .ok
        { map := [], line := 1, chr := 4, key := ['K'], value := [],
          expectingKey := false, expectingValue := false, inComment := false,
          encounteredAssignment := true, inSingle := true, inDouble := true } := by decide

/-! Claim C3. -/

/-- Claim C3, amended: while a quoted value is being accumulated — the quote
flag is set, the parser is expecting a value, and `in_a_comment` is not set,
all of which hold whenever the quote is opened directly after the assignment
operator outside a comment — every raw character other than the matching
quote mark (including `=`, `#`, space, newline and the opposite quote mark)
is appended verbatim to the value, and the matching quote mark then closes
the region leaving the value exactly the characters read. Both extra
conditions are necessary: if the quote was opened while `expecting_value` was
already false (after a space), characters inside the quote are not appended
and can abort the parse, and if the quote was opened inside a comment (after
`K#='`, where `expecting_value` is still true), plain characters inside the
quote are silently discarded: see the counterexample. -/
theorem c3_quoted_verbatim :
    (∀ (s : PState) (cs : List Char), s.inSingle = true → s.inDouble = false →
      s.expectingKey = false → s.expectingValue = true → s.inComment = false →
      (∀ c ∈ cs, c ≠ squoteChar) →
      runChars s cs = .ok { s with value := s.value ++ cs, chr := s.chr + bumps cs } ∧
      stepToken { s with value := s.value ++ cs, chr := s.chr + bumps cs } .SingleQuoteMark =
        .next
          { s with
            value := s.value ++ cs
            chr := s.chr + bumps cs
            inSingle := false
            expectingValue := false }) ∧
    (∀ (s : PState) (cs : List Char), s.inSingle = false → s.inDouble = true →
      s.expectingKey = false → s.expectingValue = true → s.inComment = false →
      (∀ c ∈ cs, c ≠ dquoteChar) →
      runChars s cs = .ok { s with value := s.value ++ cs, chr := s.chr + bumps cs } ∧
      stepToken { s with value := s.value ++ cs, chr := s.chr + bumps cs } .DoubleQuoteMark =
        .next
          { s with
            value := s.value ++ cs
            chr := s.chr + bumps cs
            inDouble := false
            expectingValue := false }) := by
  constructor
  · intro s cs h1 h2 h3 h4 h5 h6
    exact ⟨runChars_squote_accum cs s h1 h2 h3 h4 h5 h6, step_sq_close h1 h2⟩
  · intro s cs h1 h2 h3 h4 h5 h6
    exact ⟨runChars_dquote_accum cs s h1 h2 h3 h4 h5 h6, step_dq_close h1 h2⟩

/-- Claim C3, witness: from the state reached after `K='` (and `K="`), the
characters `=`, `#`, space, the opposite quote and a letter are all appended
verbatim, and the matching quote then closes the value. -/
theorem c3_quoted_verbatim_witness :
    (runChars
        { map := [], line := 1, chr := 3, key := ['K'], value := [],
          expectingKey := false, expectingValue := true, inComment := false,
          encounteredAssignment := true, inSingle := true, inDouble := false }
        ['=', '#', ' ', dquoteChar, 'x'] =
      .ok
        { map := [], line := 1, chr := 4, key := ['K'],
          value := ['=', '#', ' ', dquoteChar, 'x'],
          expectingKey := false, expectingValue := true, inComment := false,
          encounteredAssignment := true, inSingle := true, inDouble := false } ∧
      stepToken
        { map := [], line := 1, chr := 4, key := ['K'],
          value := ['=', '#', ' ', dquoteChar, 'x'],
          expectingKey := false, expectingValue := true, inComment := false,
          encounteredAssignment := true, inSingle := true, inDouble := false }
        .SingleQuoteMark =
      .next
        { map := [], line := 1, chr := 4, key := ['K'],
          value := ['=', '#', ' ', dquoteChar, 'x'],
          expectingKey := false, expectingValue := false, inComment := false,
          encounteredAssignment := true, inSingle := false, inDouble := false }) ∧
    (runChars
        { map := [], line := 1, chr := 3, key := ['K'], value := [],
          expectingKey := false, expectingValue := true, inComment := false,
          encounteredAssignment := true, inSingle := false, inDouble := true }
        ['=', '#', ' ', squoteChar, 'x'] =
      .ok
        { map := [], line := 1, chr := 4, key := ['K'],
          value := ['=', '#', ' ', squoteChar, 'x'],
          expectingKey := false, expectingValue := true, inComment := false,
          encounteredAssignment := true, inSingle := false, inDouble := true } ∧
      stepToken
        { map := [], line := 1, chr := 4, key := ['K'],
          value := ['=', '#', ' ', squoteChar, 'x'],
          expectingKey := false, expectingValue := true, inComment := false,
          encounteredAssignment := true, inSingle := false, inDouble := true }
        .DoubleQuoteMark =
      .next
        { map := [], line := 1, chr := 4, key := ['K'],
          value := ['=', '#', ' ', squoteChar, 'x'],
          expectingKey := false, expectingValue := false, inComment := false,
          encounteredAssignment := true, inSingle := false, inDouble := false }) :=
  ⟨c3_quoted_verbatim.1 _ _ rfl rfl rfl rfl rfl (by decide),
   c3_quoted_verbatim.2 _ _ rfl rfl rfl rfl rfl (by decide)⟩

/-- Claim C3, counterexample to the claim as stated: in `K= '=x'` a single
quote is open when `=` is read before the matching closing quote, yet the
character is not appended verbatim: the parse aborts with
`ExpectedValueButFoundAssignment`, because the quote was opened while
`expecting_value` was already false. And after the prefix `K#='` the quote is
open with `expecting_value` still true (it was opened immediately after `=`),
but `in_a_comment` is also true, and there a plain character read before the
closing quote is silently discarded — only the column counter changes — so
being in an open quote and expecting a value does not by itself guarantee
verbatim appending either. -/
theorem c3_counterexample :
    runChars initState ['K', '=', ' ', squoteChar] =
      .ok
        { map := [], line := 1, chr := 4, key := ['K'], value := [],
          expectingKey := false, expectingValue := false, inComment := false,
          encounteredAssignment := true, inSingle := true, inDouble := false } ∧
    process_dot_env ['K', '=', ' ', squoteChar, '=', 'x', squoteChar, nlChar] =
      .error (.ExpectedValueButFoundAssignment 1 4) ∧
    runChars initState ['K', '#', '=', squoteChar] =
      .ok
        { map := [], line := 1, chr := 3, key := ['K'], value := [],
          expectingKey := false, expectingValue := true, inComment := true,
          encounteredAssignment := false, inSingle := true, inDouble := false } ∧
    stepToken
      { map := [], line := 1, chr := 3, key := ['K'], value := [],
        expectingKey := false, expectingValue := true, inComment := true,
        encounteredAssignment := false, inSingle := true, inDouble := false }
      (.Character 'x') =
      .next
        { map := [], line := 1, chr := 4, key := ['K'], value := [],
          expectingKey := false, expectingValue := true, inComment := true,
          encounteredAssignment := false, inSingle := true, inDouble := false } := by decide

/-! Claim C5. -/

/-- Claim C5, amended: from any reachable line-start state, a line holding only
a key and `=` fails with `MissingValue` for that line; a line starting with
`=` followed by a value fails with `MissingKey`; a key-only line terminated by
a newline fails with `FoundOnlyKey`; but a key-only line terminated by
end-of-input instead fails with `MissingValue` (see the counterexample). -/
theorem c5_line_errors :
    (∀ (pre k suf : List Char) (s : PState), runChars initState pre = .ok s → lineStart s →
      k ≠ [] → (∀ c ∈ k, plainChar c = true) →
      process_dot_env (pre ++ (k ++ ('=' :: nlChar :: suf))) =
        .error (.MissingValue s.line)) ∧
    (∀ (pre v suf : List Char) (s : PState), runChars initState pre = .ok s → lineStart s →
      v ≠ [] → (∀ c ∈ v, plainChar c = true) →
      process_dot_env (pre ++ ('=' :: (v ++ (nlChar :: suf)))) =
        .error (.MissingKey s.line)) ∧
    (∀ (pre k suf : List Char) (s : PState), runChars initState pre = .ok s → lineStart s →
      k ≠ [] → (∀ c ∈ k, plainChar c = true) →
      process_dot_env (pre ++ (k ++ (nlChar :: suf))) =
        .error (.FoundOnlyKey s.line)) ∧
    (∀ (pre k : List Char) (s : PState), runChars initState pre = .ok s → lineStart s →
      k ≠ [] → (∀ c ∈ k, plainChar c = true) →
      process_dot_env (pre ++ k) = .error (.MissingValue s.line)) := by
  refine ⟨?_, ?_, ?_, ?_⟩
  · intro pre k suf s h0 hls hk hkc
    obtain ⟨hk0, hv0, hek, hev, hcm, hen, hs, hd⟩ := hls
    apply process_runChars_err
    rw [runChars_append_ok pre (k ++ ('=' :: nlChar :: suf)) h0]
    rw [runChars_append_ok k ('=' :: nlChar :: suf) (runChars_key_accum k s hcm hek hkc)]
    rw [runChars_cons_next '=' (nlChar :: suf)
      (by rw [charToken_assign]; exact step_assign_from_key hs hd hek hv0)]
    exact runChars_cons_fail nlChar suf (by
      rw [charToken_nl]
      exact step_nl_missing_value hs hd (by simp [hcm]) (by simp [hk]) hv0)
  · intro pre v suf s h0 hls hv hvc
    obtain ⟨hk0, hv0, hek, hev, hcm, hen, hs, hd⟩ := hls
    apply process_runChars_err
    rw [runChars_append_ok pre ('=' :: (v ++ (nlChar :: suf))) h0]
    rw [runChars_cons_next '=' (v ++ (nlChar :: suf))
      (by rw [charToken_assign]; exact step_assign_from_key hs hd hek hv0)]
    rw [runChars_append_ok v (nlChar :: suf)
      (runChars_value_accum v
        { s with
          encounteredAssignment := !s.inComment
          expectingKey := false
          expectingValue := true
          chr := s.chr + 1 } hcm rfl rfl hvc)]
    exact runChars_cons_fail nlChar suf (by
      rw [charToken_nl]
      exact step_nl_missing_key hs hd (by simp [hcm]) hk0)
  · intro pre k suf s h0 hls hk hkc
    obtain ⟨hk0, hv0, hek, hev, hcm, hen, hs, hd⟩ := hls
    apply process_runChars_err
    rw [runChars_append_ok pre (k ++ (nlChar :: suf)) h0]
    rw [runChars_append_ok k (nlChar :: suf) (runChars_key_accum k s hcm hek hkc)]
    exact runChars_cons_fail nlChar suf (by
      rw [charToken_nl]
      exact step_nl_found_only_key hs hd hen (by simp [hk]) hv0)
  · intro pre k s h0 hls hk hkc
    obtain ⟨hk0, hv0, hek, hev, hcm, hen, hs, hd⟩ := hls
    have hrun : runChars initState (pre ++ k) =
        .ok { s with key := s.key ++ k, chr := s.chr + k.length } := by
      rw [runChars_append_ok pre k h0]
      exact runChars_key_accum k s hcm hek hkc
    rw [process_runChars_ok _ _ hrun]
    exact eofFinish_missing_value hs hd (by simp [hk]) hv0

/-- Claim C5, witness: the three newline-terminated error forms on line 1 and
the end-of-input variant. -/
theorem c5_line_errors_witness :
    process_dot_env ([] ++ (['K', 'E', 'Y'] ++ ('=' :: nlChar :: []))) =
      .error (.MissingValue 1) ∧
    process_dot_env ([] ++ ('=' :: (['V', 'A', 'L'] ++ (nlChar :: [])))) =
      .error (.MissingKey 1) ∧
    process_dot_env ([] ++ (['K', 'E', 'Y'] ++ (nlChar :: []))) =
      .error (.FoundOnlyKey 1) ∧
    process_dot_env ([] ++ ['X', 'Y']) = .error (.MissingValue 1) :=
  ⟨c5_line_errors.1 [] ['K', 'E', 'Y'] [] initState rfl (by decide) (by decide) (by decide),
   c5_line_errors.2.1 [] ['V', 'A', 'L'] [] initState rfl (by decide) (by decide) (by decide),
   c5_line_errors.2.2.1 [] ['K', 'E', 'Y'] [] initState rfl (by decide) (by decide) (by decide),
   c5_line_errors.2.2.2 [] ['X', 'Y'] initState rfl (by decide) (by decide) (by decide)⟩

/-- Claim C5, counterexample to the claim as stated: the input `ABC` is a line
holding a bare identifier with no `=`, but because it is terminated by
end-of-input rather than a newline, parsing fails with `MissingValue`, not
`FoundOnlyKey`. -/
theorem c5_counterexample :
    process_dot_env ['A', 'B', 'C'] = .error (.MissingValue 1) ∧
    EnvError.MissingValue 1 ≠ EnvError.FoundOnlyKey 1 := by decide

/-! Claim C2. -/

/-- Claim C2, amended: for input that does not end inside an open quote,
end-of-input behaves like a final implicit newline — the same mapping or the
same error — except in two cases forced by the code: a final bare key with no
assignment (end-of-input gives `MissingValue`, an explicit newline gives
`FoundOnlyKey`), and a final assignment with both buffers empty (end-of-input
succeeds, an explicit newline gives `MissingKey`). The hypothesis
`eofLikeNewline` excludes exactly those two final states. -/
theorem c2_eof_implicit_newline (cs : List Char)
    (h : ∀ s, runChars initState cs = .ok s → eofLikeNewline s = true) :
    process_dot_env cs = process_dot_env (cs ++ [nlChar]) := by
  cases hr : runChars initState cs with
  | error e =>
    rw [process_runChars_err cs e hr,
      process_runChars_err (cs ++ [nlChar]) e (runChars_append_err cs [nlChar] hr)]
  | ok s =>
    have hb := h s hr
    simp only [eofLikeNewline, Bool.and_eq_true, Bool.not_eq_true',
      Bool.or_eq_false_iff] at hb
    obtain ⟨⟨⟨hs, hd⟩, hA⟩, hB⟩ := hb
    rw [process_runChars_ok cs s hr]
    by_cases hk : s.key = []
    · by_cases hv : s.value = []
      · cases he : s.encounteredAssignment with
        | true =>
          exfalso
          rw [hk, hv, he] at hB
          simp at hB
        | false =>
          rw [eofFinish_blank hs hd hk hv]
          have hstep : runChars initState (cs ++ [nlChar]) = .ok (lineReset s s.map) := by
            rw [runChars_append_ok cs [nlChar] hr]
            rw [runChars_cons_next nlChar []
              (by rw [charToken_nl]; exact step_nl_blank hs hd hk hv he)]
            exact runChars_nil _
          rw [process_runChars_ok _ _ hstep,
            @eofFinish_blank (lineReset s s.map) hs hd rfl rfl]
          rfl
      · rw [eofFinish_missing_key hs hd hk hv]
        cases he : s.encounteredAssignment with
        | true =>
          rw [process_runChars_err (cs ++ [nlChar]) _ (by
            rw [runChars_append_ok cs [nlChar] hr]
            exact runChars_cons_fail nlChar []
              (by rw [charToken_nl]; exact step_nl_missing_key hs hd he hk))]
        | false =>
          rw [process_runChars_err (cs ++ [nlChar]) _ (by
            rw [runChars_append_ok cs [nlChar] hr]
            exact runChars_cons_fail nlChar []
              (by rw [charToken_nl]; exact step_nl_missing_key_no_assign hs hd he hk hv))]
    · by_cases hv : s.value = []
      · cases he : s.encounteredAssignment with
        | false =>
          exfalso
          rw [hv, he] at hA
          simp [isEmpty_false_of_ne_nil hk] at hA
        | true =>
          rw [eofFinish_missing_value hs hd hk hv]
          rw [process_runChars_err (cs ++ [nlChar]) _ (by
            rw [runChars_append_ok cs [nlChar] hr]
            exact runChars_cons_fail nlChar []
              (by rw [charToken_nl]; exact step_nl_missing_value hs hd he hk hv))]
      · rw [eofFinish_commit hs hd hk hv]
        have hstep : runChars initState (cs ++ [nlChar]) =
            .ok (lineReset s (insertEnv s.map s.key s.value)) := by
          rw [runChars_append_ok cs [nlChar] hr]
          rw [runChars_cons_next nlChar []
            (by rw [charToken_nl]; exact step_nl_commit hs hd hk hv)]
          exact runChars_nil _
        rw [process_runChars_ok _ _ hstep,
          @eofFinish_blank (lineReset s (insertEnv s.map s.key s.value)) hs hd rfl rfl]
        rfl

/-- Claim C2, witness: the input `A=B` parses identically with and without a
final newline. -/
theorem c2_eof_implicit_newline_witness :
    process_dot_env ['A', '=', 'B'] = process_dot_env (['A', '=', 'B'] ++ [nlChar]) :=
  c2_eof_implicit_newline ['A', '=', 'B'] (fun s hs => by
    rw [show runChars initState ['A', '=', 'B'] =
      .ok
        { map := [], line := 1, chr := 4, key := ['A'], value := ['B'],
          expectingKey := false, expectingValue := true, inComment := false,
          encounteredAssignment := true, inSingle := false, inDouble := false }
      from by decide] at hs
    injection hs with h2
    subst h2
    decide)

/-- Claim C2, counterexample to the claim as stated: `KEY` ends outside any
quote, yet end-of-input yields `MissingValue` where an explicit final newline
yields `FoundOnlyKey`; and `=` ends outside any quote, yet end-of-input
succeeds with an empty mapping where an explicit final newline yields
`MissingKey`. -/
theorem c2_counterexample :
    runChars initState ['K', 'E', 'Y'] =
      .ok
        { map := [], line := 1, chr := 4, key := ['K', 'E', 'Y'], value := [],
          expectingKey := true, expectingValue := false, inComment := false,
          encounteredAssignment := false, inSingle := false, inDouble := false } ∧
    process_dot_env ['K', 'E', 'Y'] = .error (.MissingValue 1) ∧
    process_dot_env ['K', 'E', 'Y', nlChar] = .error (.FoundOnlyKey 1) ∧
    runChars initState ['='] =
      .ok
        { map := [], line := 1, chr := 2, key := [], value := [],
          expectingKey := false, expectingValue := true, inComment := false,
          encounteredAssignment := true, inSingle := false, inDouble := false } ∧
    process_dot_env ['='] = .ok [] ∧
    process_dot_env ['=', nlChar] = .error (.MissingKey 1) := by decide

end DotenvLib
